import Mathlib

/-!
Shallow embedding of the Lazor puzzle solver (blocks.py, board.py, solver.py).

Conventions used throughout:
* Python int becomes `Int` (grid indices, which are nonnegative, become `Nat`).
* Python `None` in an `Option`-shaped field becomes `none`; the block
  boundary fields, which `blocks.py` initialises to `None` and always
  overwrites via `set_boundaries` before any read, are modelled as `Int`
  fields initialised to the placeholder `0`.
* Mutation of an object becomes explicit state passing: a method that
  mutates its receiver returns the updated value.
* `copy.deepcopy` produces an independent object graph with equal values;
  in this value-level model it is the identity on the value.  The
  reference-level consequences of `deepcopy` (the clone shares no mutable
  cell with the original) are modelled separately by a store-based
  embedding of `test_solution` near the end of the file.
* The float offset `epsilon = 0.1` used by `solver.test_solution` for
  beams at their initial position is modelled exactly in scaled-by-10
  integer arithmetic; for the integer board data the program manipulates,
  the comparisons `left <= x + 0.1*dx <= right` agree with their exact
  rational counterparts.
-/

namespace Lazor

/-- Grid cell markers of the puzzle description: "x" (disallowed), "o"
(open), and the fixed-block markers "A", "B", "C"
(`parser_bff.parse_bff_file` only produces these for the boards the
program accepts). -/
inductive Cell where
  | x
  | o
  | A
  | B
  | C
deriving DecidableEq, Repr

/-- The three block behaviours instantiated by the program
(`ReflectBlock`, `OpaqueBlock`, `RefractBlock` in blocks.py).  The base
class `Block` is never instantiated directly by `board.py` or
`solver.py`.  `OpaqueBlock` is rendered as `absorb` because its Python
name is a reserved word in Lean. -/
inductive BlockKind where
  | reflect
  | absorb
  | refract
deriving DecidableEq, Repr

/-- A block object (class `Block` of blocks.py together with the data of
its subclasses): behaviour tag, `fixed` flag, bounding box
`top/left/bottom/right`, original grid position `orig_pos`, and the
`has_refracted` one-shot flag (meaningful only for `RefractBlock`, where
`__init__` sets it to `False`; it is carried by every block here so that
a single structure models the whole hierarchy). -/
structure Block where
  kind : BlockKind
  fixed : Bool
  top : Int
  left : Int
  bottom : Int
  right : Int
  orig_pos : Option (Nat × Nat)
  has_refracted : Bool
deriving DecidableEq, Repr

/-- Construction shared by `Block.__init__` and the subclass
constructors: boundaries unset (placeholder `0` for Python `None`),
`orig_pos = None`, `has_refracted = False`. -/
def mkBlock (kind : BlockKind) (fixed : Bool) : Block :=
  { kind := kind, fixed := fixed, top := 0, left := 0, bottom := 0,
    right := 0, orig_pos := none, has_refracted := false }

/-- `ReflectBlock(fixed)` of blocks.py. -/
def ReflectBlock (fixed : Bool) : Block := mkBlock .reflect fixed

/-- The opaque block constructor of blocks.py (its Python class name is a
reserved word in Lean, hence the different spelling). -/
def AbsorbBlock (fixed : Bool) : Block := mkBlock .absorb fixed

/-- `RefractBlock(fixed)` of blocks.py. -/
def RefractBlock (fixed : Bool) : Block := mkBlock .refract fixed

/-- `Block.set_boundaries(top, left, bottom, right)`. -/
def Block.set_boundaries (b : Block) (top left bottom right : Int) : Block :=
  { b with top := top, left := left, bottom := bottom, right := right }

/-- `Block.within_boundaries(x, y)`: closed-interval containment
`self.left <= x <= self.right and self.top <= y <= self.bottom`. -/
def Block.within_boundaries (b : Block) (x y : Int) : Bool :=
  decide (b.left ≤ x ∧ x ≤ b.right ∧ b.top ≤ y ∧ y ≤ b.bottom)

/-- The containment test `within_boundaries(x + 0.1*dx, y + 0.1*dy)` that
`solver.test_solution` applies to a hop-0 beam, written in scaled-by-10
integer arithmetic: the arguments are `sx = 10*x + dx`, `sy = 10*y + dy`
and the box is scaled by 10.  For the integer coordinates and unit
direction components the program uses, these comparisons agree exactly
with the Python float comparisons. -/
def Block.within_boundaries_scaled10 (b : Block) (sx sy : Int) : Bool :=
  decide (10 * b.left ≤ sx ∧ sx ≤ 10 * b.right ∧
          10 * b.top ≤ sy ∧ sy ≤ 10 * b.bottom)

/-- `Block.reflect_beam(beam_position, beam_direction)`: distances to the
four sides, minimum selects the struck side, `dmin == dist_left or
dmin == dist_right` flips the x-direction, otherwise the y-direction. -/
def Block.reflect_beam (b : Block) (beam_position beam_direction : Int × Int) :
    Int × Int :=
  let x := beam_position.1
  let y := beam_position.2
  let dx := beam_direction.1
  let dy := beam_direction.2
  let dist_left := |x - b.left|
  let dist_right := |x - b.right|
  let dist_top := |y - b.top|
  let dist_bottom := |y - b.bottom|
  let dmin := min (min dist_left dist_right) (min dist_top dist_bottom)
  if dmin = dist_left ∨ dmin = dist_right then
    (-dx, dy)
  else
    (dx, -dy)

/-- `interact(beam_direction, beam_position)` of the three subclasses,
dispatched on the behaviour tag.  The second component is the
(possibly mutated) receiver: `RefractBlock.interact` sets
`has_refracted` on its first call, the other variants leave the block
unchanged. -/
def Block.interact (b : Block) (beam_direction beam_position : Int × Int) :
    List (Int × Int) × Block :=
  match b.kind with
  | .reflect => ([b.reflect_beam beam_position beam_direction], b)
  | .absorb => ([], b)
  | .refract =>
      if b.has_refracted then
        ([beam_direction], b)
      else
        ([beam_direction, b.reflect_beam beam_position beam_direction],
         { b with has_refracted := true })

/-- Per-type counts of available movable blocks (the `blocks_available`
dictionary with keys "A", "B", "C" that `parser_bff` produces and
`solver.solve` reads with default 0). -/
structure Counts where
  A : Nat
  B : Nat
  C : Nat
deriving DecidableEq, Repr

/-- The board object (class `Board` of board.py).  `fixed_blocks` and
`free_positions` are the fields computed once by `Board.__init__`;
`free_blocks_placed` is the search-mutated list of movable blocks. -/
structure Board where
  orig_grid : List (List Cell)
  blocks_available : Counts
  lasers : List (Int × Int × Int × Int)
  points : List (Int × Int)
  orig_height : Nat
  orig_width : Nat
  fixed_blocks : List Block
  free_positions : List (Nat × Nat)
  free_blocks_placed : List Block
deriving DecidableEq, Repr

/-- Reading `grid[i][j]` (in-range in every use the program makes; the
default is arbitrary and outside the modelled domain). -/
def gridCell (grid : List (List Cell)) (i j : Nat) : Cell :=
  (grid.getD i []).getD j Cell.o

/-- The fixed-block list computed by `Board.__init__`: one block per
"A"/"B"/"C" grid cell, row-major, with box `top = 2i, left = 2j,
bottom = top + 2, right = left + 2` and `orig_pos = (i, j)`. -/
def computeFixedBlocks (grid : List (List Cell)) (height width : Nat) :
    List Block :=
  (List.range height).flatMap fun i =>
    (List.range width).filterMap fun j =>
      let base : Option Block :=
        match gridCell grid i j with
        | .A => some (ReflectBlock true)
        | .B => some (AbsorbBlock true)
        | .C => some (RefractBlock true)
        | _ => none
      base.map fun blk =>
        { blk.set_boundaries (2 * (i : Int)) (2 * (j : Int))
            (2 * (i : Int) + 2) (2 * (j : Int) + 2) with
          orig_pos := some (i, j) }

/-- The free-position list computed by `Board.__init__`: all grid cells
not marked "x", "A", "B" or "C", row-major. -/
def computeFreePositions (grid : List (List Cell)) (height width : Nat) :
    List (Nat × Nat) :=
  (List.range height).flatMap fun i =>
    (List.range width).filterMap fun j =>
      if gridCell grid i j ∈ [Cell.x, Cell.A, Cell.B, Cell.C] then none
      else some (i, j)

/-- `Board.__init__(data)`. -/
def Board.ofData (grid : List (List Cell)) (blocks_available : Counts)
    (lasers : List (Int × Int × Int × Int)) (points : List (Int × Int)) :
    Board :=
  let height := grid.length
  let width := (grid.headD []).length
  { orig_grid := grid
    blocks_available := blocks_available
    lasers := lasers
    points := points
    orig_height := height
    orig_width := width
    fixed_blocks := computeFixedBlocks grid height width
    free_positions := computeFreePositions grid height width
    free_blocks_placed := [] }

/-- `Board.get_placed_blocks()`: fixed blocks first, then the movable
blocks, in placement order. -/
def Board.get_placed_blocks (b : Board) : List Block :=
  b.fixed_blocks ++ b.free_blocks_placed

/-- `Board.is_placeable(i, j)`: `False` on an "x" cell and on a cell some
placed movable block has as `orig_pos`; `True` otherwise. -/
def Board.is_placeable (b : Board) (i j : Nat) : Bool :=
  if gridCell b.orig_grid i j = Cell.x then false
  else !(b.free_blocks_placed.any fun blk => decide (blk.orig_pos = some (i, j)))

/-- `Board.place_free_block(i, j, block)`: stamp the box and origin onto
the block and append it to `free_blocks_placed`. -/
def Board.place_free_block (b : Board) (i j : Nat) (block : Block) : Board :=
  let top : Int := 2 * (i : Int)
  let left : Int := 2 * (j : Int)
  let block := block.set_boundaries top left (top + 2) (left + 2)
  let block := { block with orig_pos := some (i, j) }
  { b with free_blocks_placed := b.free_blocks_placed ++ [block] }

/-- The loop of `Board.remove_free_block`: delete the first list entry
whose `orig_pos` matches. -/
def removeFirstAt : List Block → Nat × Nat → List Block
  | [], _ => []
  | blk :: rest, ij =>
      if blk.orig_pos = some ij then rest else blk :: removeFirstAt rest ij

/-- `Board.remove_free_block(i, j)`. -/
def Board.remove_free_block (b : Board) (i j : Nat) : Board :=
  { b with free_blocks_placed := removeFirstAt b.free_blocks_placed (i, j) }

/-- `Board.clone()` is `copy.deepcopy(self)`: a fully independent copy
with equal field values — the identity on the board value in this
value-level model (independence of the copy is treated by the
store-based model below). -/
def Board.clone (b : Board) : Board := b

/-- A queued beam `(x, y, dx, dy, steps)` of `solver.test_solution`. -/
structure Beam where
  x : Int
  y : Int
  dx : Int
  dy : Int
  steps : Nat
deriving DecidableEq, Repr

/-- The loop state of `solver.test_solution`: the `blocks` list obtained
from `board_copy.get_placed_blocks()`, the FIFO `beam_queue`, the
`remaining_targets` set, and the cloned board's dimensions (the only
board fields the loop reads). -/
structure SimState where
  blocks : List Block
  queue : List Beam
  remaining : Finset (Int × Int)
  width : Nat
  height : Nat
deriving DecidableEq

/-- The `for block in blocks: if block.within_boundaries(...)` scan with
`break`: first block whose box contains `(x, y)`, together with its list
index (the index stands for the object identity the Python loop mutates
through). -/
def findCollision : List Block → Int → Int → Nat → Option (Nat × Block)
  | [], _, _, _ => none
  | blk :: rest, x, y, i =>
      if blk.within_boundaries x y then some (i, blk)
      else findCollision rest x y (i + 1)

/-- The hop-0 scan of `test_solution`, which tests the offset point
`(x + 0.1*dx, y + 0.1*dy)`: same first-match scan with the scaled test,
called with `sx = 10*x + dx`, `sy = 10*y + dy`. -/
def findCollisionEps : List Block → Int → Int → Nat → Option (Nat × Block)
  | [], _, _, _ => none
  | blk :: rest, sx, sy, i =>
      if blk.within_boundaries_scaled10 sx sy then some (i, blk)
      else findCollisionEps rest sx sy (i + 1)

/-- Enqueued successors: one beam per direction returned by `interact`,
at the given position with hop count `steps + 1`. -/
def successors (pos : Int × Int) (dirs : List (Int × Int)) (steps : Nat) :
    List Beam :=
  dirs.map fun d => ⟨pos.1, pos.2, d.1, d.2, steps + 1⟩

/-- The effect of `collided_block.interact(...)` followed by enqueuing
the produced beams: the block at index `idx` is replaced by its mutated
value, the successors go to the back of the queue (when `interact`
returns the empty list nothing is enqueued, which the Python code
handles with an explicit `continue` to the same effect). -/
def applyInteract (s : SimState) (rest : List Beam) (idx : Nat) (blk : Block)
    (dir pos : Int × Int) (steps : Nat) : SimState :=
  let r := blk.interact dir pos
  { s with blocks := s.blocks.set idx r.2,
           queue := rest ++ successors pos r.1 steps }

/-- The block-collision scan on the next position and its consequences:
first containing block interacts (its mutation written back, successors
enqueued), no containing block lets the beam continue unchanged. -/
def scanCollision (s : SimState) (rest : List Beam) (dir : Int × Int)
    (next_x next_y : Int) (steps : Nat) : SimState :=
  match findCollision s.blocks next_x next_y 0 with
  | some (idx, blk) =>
      applyInteract s rest idx blk dir (next_x, next_y) steps
  | none =>
      { s with queue := rest ++ [⟨next_x, next_y, dir.1, dir.2, steps + 1⟩] }

/-- The part of one `while beam_queue` iteration after the hop-0 special
case: hop-budget check, move, bounds check, target check (with immediate
`return True` when the target set empties), collision scan.  `Sum.inl`
is a `return` from `test_solution`, `Sum.inr` the state at the next
iteration. -/
def stepMove (s : SimState) (b : Beam) (rest : List Beam) : Bool ⊕ SimState :=
  if b.steps ≥ 200 then Sum.inr { s with queue := rest }
  else
    let next_x := b.x + b.dx
    let next_y := b.y + b.dy
    if ¬(0 ≤ next_x ∧ next_x < (s.width : Int) * 2 + 1 ∧
         0 ≤ next_y ∧ next_y < (s.height : Int) * 2 + 1) then
      Sum.inr { s with queue := rest }
    else if (next_x, next_y) ∈ s.remaining then
      let remaining' := s.remaining.erase (next_x, next_y)
      if remaining' = ∅ then Sum.inl true
      else
        Sum.inr (scanCollision { s with remaining := remaining' } rest
          (b.dx, b.dy) next_x next_y b.steps)
    else
      Sum.inr (scanCollision s rest (b.dx, b.dy) next_x next_y b.steps)

/-- One full `while beam_queue` iteration on the dequeued beam `b` with
queue remainder `rest`: the hop-0 special handling (offset-point scan;
on a hit, `interact` is called with the beam's literal position and the
normal move is skipped), then `stepMove`. -/
def stepBeam (s : SimState) (b : Beam) (rest : List Beam) : Bool ⊕ SimState :=
  if b.steps = 0 then
    match findCollisionEps s.blocks (10 * b.x + b.dx) (10 * b.y + b.dy) 0 with
    | some (idx, blk) =>
        Sum.inr (applyInteract s rest idx blk (b.dx, b.dy) (b.x, b.y) b.steps)
    | none => stepMove s b rest
  else stepMove s b rest

/-- The `while beam_queue` loop, with explicit fuel (a fuel bound under
which the loop always finishes is proved below): empty queue returns
`len(remaining_targets) == 0`. -/
def simLoop : Nat → SimState → Option Bool
  | 0, _ => none
  | fuel + 1, s =>
      match s.queue with
      | [] => some (decide (s.remaining = ∅))
      | b :: rest =>
          match stepBeam s b rest with
          | Sum.inl r => some r
          | Sum.inr s' => simLoop fuel s'

/-- Potential of a beam at hop count `n`: the loop strictly decreases the
summed potential of the queue, since a dequeued beam enqueues at most two
successor beams, each at hop count `n + 1`, and none at all once
`n ≥ 200`. -/
def pot (n : Nat) : Nat := 3 ^ (201 - n)

/-- Summed potential of a queue. -/
def queueMeasure (q : List Beam) : Nat := (q.map fun b => pot b.steps).sum

/-- The initial simulation state of `test_solution(board, targets)`: the
board is cloned, `blocks = board_copy.get_placed_blocks()`, one hop-0
beam per laser, `remaining_targets = set(targets)`. -/
def initState (board : Board) (targets : Finset (Int × Int)) : SimState :=
  let board_copy := board.clone
  { blocks := board_copy.get_placed_blocks
    queue := board_copy.lasers.map fun l => ⟨l.1, l.2.1, l.2.2.1, l.2.2.2, 0⟩
    remaining := targets
    width := board_copy.orig_width
    height := board_copy.orig_height }

/-- `solver.test_solution(board, targets)`, run with enough fuel for the
loop to finish (totality at this fuel is proved below). -/
def test_solution (board : Board) (targets : Finset (Int × Int)) :
    Option Bool :=
  let s := initState board targets
  simLoop (queueMeasure s.queue + 1) s

/-- The `Bool` the caller of `test_solution` observes. -/
def test_solutionB (board : Board) (targets : Finset (Int × Int)) : Bool :=
  (test_solution board targets).getD false

/-- The block-type keys "A", "B", "C" that `solver.solve` iterates over. -/
inductive BlockType where
  | A
  | B
  | C
deriving DecidableEq, Repr

/-- `free_counts.get(block_type, 0)`. -/
def getCount (c : Counts) : BlockType → Nat
  | .A => c.A
  | .B => c.B
  | .C => c.C

/-- `free_counts[block_type] -= 1`. -/
def decCount (c : Counts) : BlockType → Counts
  | .A => { c with A := c.A - 1 }
  | .B => { c with B := c.B - 1 }
  | .C => { c with C := c.C - 1 }

/-- `free_counts[block_type] += 1`. -/
def incCount (c : Counts) : BlockType → Counts
  | .A => { c with A := c.A + 1 }
  | .B => { c with B := c.B + 1 }
  | .C => { c with C := c.C + 1 }

/-- The block instantiated for a tried type in `solve.backtrack`
(`ReflectBlock()`, `OpaqueBlock()`, `RefractBlock()`, all non-fixed). -/
def mkFreeBlock : BlockType → Block
  | .A => ReflectBlock false
  | .B => AbsorbBlock false
  | .C => RefractBlock false

/-- `type(block).__name__` for the three block classes. -/
def typeName (b : Block) : String :=
  match b.kind with
  | .reflect => "ReflectBlock"
  | .absorb => "OpaqueBlock"
  | .refract => "RefractBlock"

/-- A solution record entry `(block.orig_pos, type(block).__name__)`. -/
abbrev Solution := List (Option (Nat × Nat) × String)

/-- The list comprehension
`[(block.orig_pos, type(block).__name__) for block in board.free_blocks_placed]`. -/
def solutionOf (placed : List Block) : Solution :=
  placed.map fun blk => (blk.orig_pos, typeName blk)

/-- Sum of the per-type counts (the total movable budget left). -/
def totalCounts (c : Counts) : Nat := c.A + c.B + c.C

mutual

/-- `solve.backtrack(pos_index, free_counts)`.  The Python closure
mutates the live `board` and the shared `free_counts` dictionary in
place; here both are threaded explicitly, so the function returns the
result together with the counts and board as left behind by the call.
`positions` is the suffix `board.free_positions[pos_index:]` and
`targets` the set `solve` computed from `board.points` at entry. -/
def backtrack (board : Board) (targets : Finset (Int × Int))
    (positions : List (Nat × Nat)) (free_counts : Counts) :
    Option Solution × Counts × Board :=
  if free_counts.A = 0 ∧ free_counts.B = 0 ∧ free_counts.C = 0 then
    if test_solutionB board targets then
      (some (solutionOf board.free_blocks_placed), free_counts, board)
    else (none, free_counts, board)
  else
    match positions with
    | [] => (none, free_counts, board)
    | pos :: rest =>
        match backtrack board targets rest free_counts with
        | (some result, c', b') => (some result, c', b')
        | (none, c', b') =>
            if b'.is_placeable pos.1 pos.2 then
              tryTypes b' targets pos rest c' [BlockType.A, BlockType.B, BlockType.C]
            else (none, c', b')
termination_by (positions.length, 0)
decreasing_by
  all_goals simp_wf
  all_goals exact Prod.Lex.left _ _ (by omega)

/-- The `for block_type in ["A", "B", "C"]` loop body of
`solve.backtrack`: place, decrement, recurse; on failure remove the
block, restore the count and try the next type. -/
def tryTypes (board : Board) (targets : Finset (Int × Int))
    (pos : Nat × Nat) (rest : List (Nat × Nat)) (free_counts : Counts) :
    List BlockType → Option Solution × Counts × Board
  | [] => (none, free_counts, board)
  | t :: ts =>
      if 0 < getCount free_counts t then
        let b1 := board.place_free_block pos.1 pos.2 (mkFreeBlock t)
        let c1 := decCount free_counts t
        match backtrack b1 targets rest c1 with
        | (some result, c2, b2) => (some result, c2, b2)
        | (none, c2, b2) =>
            let b3 := b2.remove_free_block pos.1 pos.2
            let c3 := incCount c2 t
            tryTypes b3 targets pos rest c3 ts
      else tryTypes board targets pos rest free_counts ts
termination_by types => (rest.length, types.length + 1)
decreasing_by
  all_goals simp_wf
  all_goals exact Prod.Lex.right _ (by omega)

end

/-- `solver.solve(board)`: build the targets set and the counts
dictionary, run `backtrack` from position index 0.  The Python function
returns only the solution; the board left behind by the search (which
the caller observes through its own reference) is returned here as the
second component. -/
def solve (board : Board) : Option Solution × Board :=
  let targets := board.points.toFinset
  let free_blocks_counts : Counts :=
    { A := board.blocks_available.A
      B := board.blocks_available.B
      C := board.blocks_available.C }
  let r := backtrack board targets board.free_positions free_blocks_counts
  (r.1, r.2.2)

/-!
Store-based model of `test_solution`.

`test_solution` mutates exactly two kinds of state: its own local
`remaining_targets` set, and — through `interact` — the block objects
reachable from `board_copy`.  Whether the caller's board is affected is
a question of object identity, invisible to the value-level model above,
so it is settled here with blocks held in an explicit store (a list
indexed by allocation order): a board holds block references (store
indices), `copy.deepcopy` allocates fresh cells holding copies of the
referenced blocks, and `interact` writes back through the reference the
collision scan found.  The loop body is transcribed from
`solver.test_solution` exactly as above, reading and writing blocks
through the store.
-/

/-- Placeholder returned when a store is read at a dangling reference
(Python would raise; no theorem below depends on its value). -/
def defaultBlock : Block := mkBlock .reflect false

/-- A board as an object graph: the pure fields read by `test_solution`,
with the block objects replaced by references into a store. -/
structure BoardRef where
  lasers : List (Int × Int × Int × Int)
  points : List (Int × Int)
  orig_height : Nat
  orig_width : Nat
  fixed_block_ids : List Nat
  free_block_ids : List Nat
deriving DecidableEq, Repr

/-- `copy.deepcopy` on a board: allocate a fresh store cell for every
block reachable from the board (holding a copy of the referenced
block's current value) and return the board value with its references
replaced by the fresh ones.  Fresh references start at the old store
length, so they are disjoint from every pre-existing reference. -/
def cloneH (store : List Block) (b : BoardRef) : List Block × BoardRef :=
  let n := store.length
  let fixedCopies := b.fixed_block_ids.map fun i => store.getD i defaultBlock
  let freeCopies := b.free_block_ids.map fun i => store.getD i defaultBlock
  let fixedIds := (List.range fixedCopies.length).map fun k => n + k
  let freeIds :=
    (List.range freeCopies.length).map fun k => n + fixedCopies.length + k
  (store ++ fixedCopies ++ freeCopies,
   { b with fixed_block_ids := fixedIds, free_block_ids := freeIds })

/-- Loop state of the store-based `test_solution`: the store, the
`blocks` list (now a list of references, as
`board_copy.get_placed_blocks()` returns the fixed references followed
by the movable ones), the queue, the remaining targets and the cloned
board's dimensions. -/
structure SimStateH where
  store : List Block
  blockIds : List Nat
  queue : List Beam
  remaining : Finset (Int × Int)
  width : Nat
  height : Nat
deriving DecidableEq

/-- First-match collision scan through the store: returns the reference
of the struck block together with its current value. -/
def findCollisionH (store : List Block) : List Nat → Int → Int →
    Option (Nat × Block)
  | [], _, _ => none
  | id :: rest, x, y =>
      if (store.getD id defaultBlock).within_boundaries x y then
        some (id, store.getD id defaultBlock)
      else findCollisionH store rest x y

/-- The hop-0 offset-point scan through the store (scaled as in
`Block.within_boundaries_scaled10`). -/
def findCollisionEpsH (store : List Block) : List Nat → Int → Int →
    Option (Nat × Block)
  | [], _, _ => none
  | id :: rest, sx, sy =>
      if (store.getD id defaultBlock).within_boundaries_scaled10 sx sy then
        some (id, store.getD id defaultBlock)
      else findCollisionEpsH store rest sx sy

/-- `interact` through a reference: the mutated block value is written
back to the store cell the reference names. -/
def applyInteractH (s : SimStateH) (rest : List Beam) (id : Nat) (blk : Block)
    (dir pos : Int × Int) (steps : Nat) : SimStateH :=
  let r := blk.interact dir pos
  { s with store := s.store.set id r.2,
           queue := rest ++ successors pos r.1 steps }

/-- Store-based version of `scanCollision`. -/
def scanCollisionH (s : SimStateH) (rest : List Beam) (dir : Int × Int)
    (next_x next_y : Int) (steps : Nat) : SimStateH :=
  match findCollisionH s.store s.blockIds next_x next_y with
  | some (id, blk) =>
      applyInteractH s rest id blk dir (next_x, next_y) steps
  | none =>
      { s with queue := rest ++ [⟨next_x, next_y, dir.1, dir.2, steps + 1⟩] }

/-- Store-based version of `stepMove`. -/
def stepMoveH (s : SimStateH) (b : Beam) (rest : List Beam) :
    Bool ⊕ SimStateH :=
  if b.steps ≥ 200 then Sum.inr { s with queue := rest }
  else
    let next_x := b.x + b.dx
    let next_y := b.y + b.dy
    if ¬(0 ≤ next_x ∧ next_x < (s.width : Int) * 2 + 1 ∧
         0 ≤ next_y ∧ next_y < (s.height : Int) * 2 + 1) then
      Sum.inr { s with queue := rest }
    else if (next_x, next_y) ∈ s.remaining then
      let remaining' := s.remaining.erase (next_x, next_y)
      if remaining' = ∅ then Sum.inl true
      else
        Sum.inr (scanCollisionH { s with remaining := remaining' } rest
          (b.dx, b.dy) next_x next_y b.steps)
    else
      Sum.inr (scanCollisionH s rest (b.dx, b.dy) next_x next_y b.steps)

/-- Store-based version of `stepBeam`. -/
def stepBeamH (s : SimStateH) (b : Beam) (rest : List Beam) :
    Bool ⊕ SimStateH :=
  if b.steps = 0 then
    match findCollisionEpsH s.store s.blockIds
        (10 * b.x + b.dx) (10 * b.y + b.dy) with
    | some (id, blk) =>
        Sum.inr (applyInteractH s rest id blk (b.dx, b.dy) (b.x, b.y) b.steps)
    | none => stepMoveH s b rest
  else stepMoveH s b rest

/-- Store-based version of `simLoop`, returning the final store next to
the result so the caller's view of the heap is explicit. -/
def simLoopH : Nat → SimStateH → Option Bool × List Block
  | 0, s => (none, s.store)
  | fuel + 1, s =>
      match s.queue with
      | [] => (some (decide (s.remaining = ∅)), s.store)
      | b :: rest =>
          match stepBeamH s b rest with
          | Sum.inl r => (some r, s.store)
          | Sum.inr s' => simLoopH fuel s'

/-- Store-based `test_solution(board, targets)`: clone the board (fresh
store cells), run the loop on the clone's blocks.  The caller's
`BoardRef` value is untouched by construction — Python never reassigns
a field of the argument board — so the frame question left is whether
the store cells the argument references are written, which the theorem
below settles. -/
def test_solutionH (store : List Block) (board : BoardRef)
    (targets : Finset (Int × Int)) : Option Bool × List Block :=
  let p := cloneH store board
  let board_copy := p.2
  let s : SimStateH :=
    { store := p.1
      blockIds := board_copy.fixed_block_ids ++ board_copy.free_block_ids
      queue := board_copy.lasers.map fun l => ⟨l.1, l.2.1, l.2.2.1, l.2.2.2, 0⟩
      remaining := targets
      width := board_copy.orig_width
      height := board_copy.orig_height }
  simLoopH (queueMeasure s.queue + 1) s

/-!
Concrete instances used by counterexamples and witnesses below.
-/

/-- A movable refract block whose one-shot flag has been consumed by a
simulation run (box of cell (0,0)). -/
def usedRefract : Block :=
  { (RefractBlock false).set_boundaries 0 0 2 2 with
    orig_pos := some (0, 0), has_refracted := true }

/-- A board holding `usedRefract` as its only placed block. -/
def boardWithUsedRefract : Board :=
  { orig_grid := [[Cell.o]], blocks_available := ⟨0, 0, 1⟩, lasers := [],
    points := [], orig_height := 1, orig_width := 1, fixed_blocks := [],
    free_positions := [(0, 0)], free_blocks_placed := [usedRefract] }

/-- A fixed reflect block on cell (0,0): box `[0,2] × [0,2]`. -/
def reflectAt00 : Block :=
  { (ReflectBlock true).set_boundaries 0 0 2 2 with orig_pos := some (0, 0) }

/-- Simulation state whose sole beam starts at `(2,1)` — on the right
edge of `reflectAt00`'s box — heading right, at hop 0, with nothing else
queued and no targets. -/
def edgeStartState : SimState :=
  { blocks := [reflectAt00], queue := [⟨2, 1, 1, 0, 0⟩], remaining := ∅,
    width := 2, height := 1 }

/-- Simulation state whose sole beam starts at `(1,1)` — strictly inside
`reflectAt00`'s box — heading right, at hop 0. -/
def interiorStartState : SimState :=
  { blocks := [reflectAt00], queue := [⟨1, 1, 1, 0, 0⟩], remaining := ∅,
    width := 2, height := 1 }

/-- A fresh refract block with the box of cell (0,0). -/
def freshRefract : Block := (RefractBlock false).set_boundaries 0 0 2 2

/-- The reflect block of the repository's own block tests: boundaries
`top=2, left=2, bottom=4, right=4`. -/
def testReflect : Block := (ReflectBlock false).set_boundaries 2 2 4 4

/-- A one-cell board whose only cell carries a fixed reflect block. -/
def boardFixedA : Board := Board.ofData [[Cell.A]] ⟨0, 0, 0⟩ [] []

/-- A fixed reflect block on cell (0,1): box `[2,4] × [0,2]`, which
contains the point `(3,1)`. -/
def reflectAt01 : Block :=
  { (ReflectBlock true).set_boundaries 0 2 2 4 with orig_pos := some (0, 1) }

/-- State for the target-inside-a-box step: the dequeued beam `(2,1)`
heading right at hop 1 is about to move onto `(3,1)`, the only remaining
target, which lies inside `reflectAt01`'s box, while a second beam is
still queued. -/
def targetInBoxState : SimState :=
  { blocks := [reflectAt01], queue := [⟨2, 1, 1, 0, 1⟩, ⟨0, 0, 1, 1, 5⟩],
    remaining := {(3, 1)}, width := 2, height := 1 }

/-- A trivially solvable board: one open cell, no lasers, no targets,
zero movable budget. -/
def trivialBoard : Board := Board.ofData [[Cell.o]] ⟨0, 0, 0⟩ [] []

/-- An unsolvable board: its only cell is disallowed while one reflect
block must still be placed, so the search exhausts without placing. -/
def stuckBoard : Board := Board.ofData [[Cell.x]] ⟨1, 0, 0⟩ [] []

/-- A state whose dequeued beam has exhausted the 200-hop budget. -/
def exhaustedBeamState : SimState :=
  { blocks := [reflectAt00], queue := [⟨1, 1, 1, 0, 200⟩], remaining := {(3, 1)},
    width := 2, height := 1 }

/-- A one-cell store holding `usedRefract`. -/
def storeOne : List Block := [usedRefract]

/-- A board-as-references whose single movable block is cell 0 of
`storeOne`, with one laser. -/
def boardRefOne : BoardRef :=
  { lasers := [(0, 1, 1, 0)], points := [], orig_height := 1, orig_width := 1,
    fixed_block_ids := [], free_block_ids := [0] }

/-!
Theorems.
-/

/-- C1 (counterexample): the claim that every `RefractBlock` in the board
returned by `clone()` has `has_refracted = false` fails on a board whose
refract block has already refracted — `clone()` is `copy.deepcopy`, which
copies the flag as it stands.  The clone of `boardWithUsedRefract`
contains a refract block whose flag is still `true`. -/
theorem clone_resets_refract_flag_counterexample :
    ¬(∀ blk ∈ (Board.clone boardWithUsedRefract).get_placed_blocks,
        blk.kind = BlockKind.refract → blk.has_refracted = false) ∧
    (Board.clone boardWithUsedRefract).get_placed_blocks.map Block.kind =
      [BlockKind.refract] ∧
    (Board.clone boardWithUsedRefract).get_placed_blocks.map Block.has_refracted =
      [true] := by
  refine ⟨fun h => ?_, rfl, rfl⟩
  have := h usedRefract (by decide) (by decide)
  simp [usedRefract, RefractBlock, mkBlock, Block.set_boundaries] at this

/-- C1 (amended): `clone()` is a deep copy with equal field values — it
preserves, rather than resets, every block's `has_refracted` flag, so a
clone's refract flags are `false` exactly when the original's are.  (In
the program's actual runs the original board's flags are always `false`,
since `interact` is only ever invoked on blocks of a clone.) -/
theorem clone_preserves_blocks_and_flags :
    ∀ b : Board, Board.clone b = b ∧
      (Board.clone b).get_placed_blocks.map Block.has_refracted =
        b.get_placed_blocks.map Block.has_refracted :=
  fun _ => ⟨rfl, rfl⟩

/-- C3 (confirmed): on a fresh refract block, `interact` returns exactly
the two directions `[direction, reflected]` — original first — and marks
the block; on a block that has already refracted, `interact` returns
exactly `[direction]` and leaves the block unchanged, so every call
after the first returns one direction equal to its input. -/
theorem refract_one_shot (b : Block) (hk : b.kind = BlockKind.refract) :
    (b.has_refracted = false →
      ∀ dir pos : Int × Int,
        (b.interact dir pos).1 = [dir, b.reflect_beam pos dir] ∧
        (b.interact dir pos).1.length = 2 ∧
        ((b.interact dir pos).2).has_refracted = true ∧
        ((b.interact dir pos).2).kind = BlockKind.refract) ∧
    (b.has_refracted = true →
      ∀ dir pos : Int × Int,
        (b.interact dir pos).1 = [dir] ∧ (b.interact dir pos).2 = b) := by
  constructor
  · intro hf dir pos
    simp [Block.interact, hk, hf]
  · intro hf dir pos
    simp [Block.interact, hk, hf]

/-- Witness for `refract_one_shot`: on the fresh refract block
`freshRefract`, the first `interact` from direction `(1,1)` at `(1,0)`
returns two beams and sets the flag, and the returned block's next
`interact` returns exactly the incoming direction. -/
theorem refract_one_shot_witness :
    (freshRefract.interact (1, 1) (1, 0)).1 =
      [(1, 1), freshRefract.reflect_beam (1, 0) (1, 1)] ∧
    ((freshRefract.interact (1, 1) (1, 0)).2).has_refracted = true ∧
    (((freshRefract.interact (1, 1) (1, 0)).2).interact (2, 1) (0, 0)).1 =
      [(2, 1)] := by
  have h1 := (refract_one_shot freshRefract (by decide)).1 (by decide) (1, 1) (1, 0)
  have h2 := (refract_one_shot ((freshRefract.interact (1, 1) (1, 0)).2)
    (by decide)).2 (by decide) (2, 1) (0, 0)
  exact ⟨h1.1, h1.2.2.1, h2.1⟩

/-- C4 (confirmed): `reflect_beam` computes the four side distances,
takes their minimum, and flips exactly one component: when the minimum
is attained at the left or right side (including every tie between a
vertical and a horizontal side) the x-component is negated, otherwise
the y-component is; the minimum is always attained at one of the four
sides. -/
theorem reflect_beam_rule (b : Block) (pos dir : Int × Int) :
    ((min (min |pos.1 - b.left| |pos.1 - b.right|)
        (min |pos.2 - b.top| |pos.2 - b.bottom|) = |pos.1 - b.left| ∨
      min (min |pos.1 - b.left| |pos.1 - b.right|)
        (min |pos.2 - b.top| |pos.2 - b.bottom|) = |pos.1 - b.right|) →
      b.reflect_beam pos dir = (-dir.1, dir.2)) ∧
    (¬(min (min |pos.1 - b.left| |pos.1 - b.right|)
        (min |pos.2 - b.top| |pos.2 - b.bottom|) = |pos.1 - b.left| ∨
      min (min |pos.1 - b.left| |pos.1 - b.right|)
        (min |pos.2 - b.top| |pos.2 - b.bottom|) = |pos.1 - b.right|) →
      b.reflect_beam pos dir = (dir.1, -dir.2)) ∧
    (min (min |pos.1 - b.left| |pos.1 - b.right|)
        (min |pos.2 - b.top| |pos.2 - b.bottom|) = |pos.1 - b.left| ∨
     min (min |pos.1 - b.left| |pos.1 - b.right|)
        (min |pos.2 - b.top| |pos.2 - b.bottom|) = |pos.1 - b.right| ∨
     min (min |pos.1 - b.left| |pos.1 - b.right|)
        (min |pos.2 - b.top| |pos.2 - b.bottom|) = |pos.2 - b.top| ∨
     min (min |pos.1 - b.left| |pos.1 - b.right|)
        (min |pos.2 - b.top| |pos.2 - b.bottom|) = |pos.2 - b.bottom|) := by
  refine ⟨?_, ?_, ?_⟩
  · intro h
    simp only [Block.reflect_beam]
    rw [if_pos h]
  · intro h
    simp only [Block.reflect_beam]
    rw [if_neg h]
  · rcases min_cases (min |pos.1 - b.left| |pos.1 - b.right|)
      (min |pos.2 - b.top| |pos.2 - b.bottom|) with ⟨h, _⟩ | ⟨h, _⟩ <;>
      rw [h] <;>
      [rcases min_cases |pos.1 - b.left| |pos.1 - b.right| with ⟨h2, _⟩ | ⟨h2, _⟩;
       rcases min_cases |pos.2 - b.top| |pos.2 - b.bottom| with ⟨h2, _⟩ | ⟨h2, _⟩] <;>
      simp [h2]

/-- Witness for `reflect_beam_rule`: a corner hit on the repository's
test block (`boundaries 2 2 4 4`) from `(3,3)`, where all four side
distances tie, flips the horizontal component: `(1,1)` becomes `(-1,1)`. -/
theorem reflect_beam_rule_witness :
    testReflect.reflect_beam (3, 3) (1, 1) = (-1, 1) :=
  (reflect_beam_rule testReflect (3, 3) (1, 1)).1 (by decide)

/-- C5 (confirmed): for an in-range grid cell `(i,j)`, `is_placeable`
returns `true` exactly when the cell is not marked "x" and no placed
movable block has origin `(i,j)`; in particular a cell holding a fixed
block (marker "A"/"B"/"C") is placeable as long as no movable block sits
there, since only the "x" marker and the movable list are consulted. -/
theorem is_placeable_spec (b : Board) (i j : Nat)
    (_hi : i < b.orig_grid.length) (_hj : j < (b.orig_grid.getD i []).length) :
    b.is_placeable i j = true ↔
      (gridCell b.orig_grid i j ≠ Cell.x ∧
       ∀ blk ∈ b.free_blocks_placed, blk.orig_pos ≠ some (i, j)) := by
  simp only [Board.is_placeable]
  split
  · rename_i hx
    simp [hx]
  · rename_i hx
    simp [hx, List.any_eq_true]

/-- Witness for `is_placeable_spec`: on `boardFixedA`, whose single cell
carries a fixed reflect block and no movable block, `is_placeable 0 0`
is `true`. -/
theorem is_placeable_spec_witness :
    boardFixedA.is_placeable 0 0 = true ∧
    gridCell boardFixedA.orig_grid 0 0 = Cell.A ∧
    boardFixedA.fixed_blocks ≠ [] :=
  ⟨(is_placeable_spec boardFixedA 0 0 (by decide) (by decide)).mpr
     (by constructor <;> decide),
   by decide, by decide⟩

/-- C2 (counterexample): the dequeued hop-0 beam of `edgeStartState`
starts at `(2,1)`, which the closed-interval containment test places
inside the placed block's box `[0,2] × [0,2]`; yet the simulator's hop-0
scan — which tests the offset point `(2.1, 1)` instead — finds no block,
and the step moves the beam to `(3,1)` with its direction unchanged,
whereas an `interact` with the reflect block would have produced
direction `(-1,0)`.  The beam therefore takes its first hop without that
block's `interact` being called, refuting the claim. -/
theorem initial_containment_counterexample :
    reflectAt00.within_boundaries 2 1 = true ∧
    findCollisionEps edgeStartState.blocks (10 * 2 + 1) (10 * 1 + 0) 0 = none ∧
    stepBeam edgeStartState ⟨2, 1, 1, 0, 0⟩ [] =
      Sum.inr { edgeStartState with queue := [⟨3, 1, 1, 0, 1⟩] } ∧
    (reflectAt00.interact (1, 0) (2, 1)).1 = [(-1, 0)] := by
  refine ⟨by decide, by decide, ?_, by decide⟩
  decide

/-- C2 (amended): the containment test the simulator applies to a hop-0
beam is `within_boundaries` at the point offset by `epsilon = 0.1` along
the beam's direction, `(x + 0.1·dx, y + 0.1·dy)` — not at the literal
start `(x, y)`.  When that offset point lies inside some placed block's
box, the first such block's `interact` is called with the beam's literal
position before the beam takes its first hop (and the normal move is
skipped); when it lies in no box, the beam is processed by the ordinary
move step. -/
theorem initial_offset_containment (s : SimState) (b : Beam)
    (rest : List Beam) (h0 : b.steps = 0) :
    (∀ idx blk,
      findCollisionEps s.blocks (10 * b.x + b.dx) (10 * b.y + b.dy) 0 =
        some (idx, blk) →
      stepBeam s b rest =
        Sum.inr (applyInteract s rest idx blk (b.dx, b.dy) (b.x, b.y) b.steps)) ∧
    (findCollisionEps s.blocks (10 * b.x + b.dx) (10 * b.y + b.dy) 0 = none →
      stepBeam s b rest = stepMove s b rest) := by
  constructor
  · intro idx blk hfind
    simp [stepBeam, h0, hfind]
  · intro hfind
    simp [stepBeam, h0, hfind]

/-- Witness for `initial_offset_containment`: the hop-0 beam of
`interiorStartState` starts at `(1,1)`, strictly inside the reflect
block's box, its offset point `(1.1, 1)` is found by the scan, and the
step calls `interact` at the literal position `(1,1)` — the resulting
queue holds the reflected beam `(1,1,-1,0)` at hop 1. -/
theorem initial_offset_containment_witness :
    stepBeam interiorStartState ⟨1, 1, 1, 0, 0⟩ [] =
      Sum.inr (applyInteract interiorStartState [] 0 reflectAt00
        (1, 0) (1, 1) 0) ∧
    (applyInteract interiorStartState [] 0 reflectAt00 (1, 0) (1, 1) 0).queue =
      [⟨1, 1, -1, 0, 1⟩] :=
  ⟨(initial_offset_containment interiorStartState ⟨1, 1, 1, 0, 0⟩ [] rfl).1
     0 reflectAt00 (by decide), by decide⟩

/-- The collision scan never touches the remaining-target set. -/
theorem scanCollision_remaining (s : SimState) (rest : List Beam)
    (dir : Int × Int) (next_x next_y : Int) (steps : Nat) :
    (scanCollision s rest dir next_x next_y steps).remaining = s.remaining := by
  rw [scanCollision]
  split
  · rfl
  · rfl

/-- C6 (confirmed): in a normal simulation step (the hop-0 special case
not firing), once the hop budget and bounds checks pass, the
remaining-target test on the next position runs before the
block-collision scan: a remaining target is removed even when it lies
inside a placed block's box, and if it was the last target the step
returns success immediately, regardless of the beams still queued;
otherwise the iteration continues with the target removed. -/
theorem target_checked_before_collision (s : SimState) (b : Beam)
    (rest : List Beam)
    (h0 : b.steps = 0 →
      findCollisionEps s.blocks (10 * b.x + b.dx) (10 * b.y + b.dy) 0 = none)
    (hbudget : b.steps < 200)
    (hbounds : 0 ≤ b.x + b.dx ∧ b.x + b.dx < (s.width : Int) * 2 + 1 ∧
      0 ≤ b.y + b.dy ∧ b.y + b.dy < (s.height : Int) * 2 + 1)
    (htarget : (b.x + b.dx, b.y + b.dy) ∈ s.remaining) :
    (s.remaining.erase (b.x + b.dx, b.y + b.dy) = ∅ →
      stepBeam s b rest = Sum.inl true) ∧
    (s.remaining.erase (b.x + b.dx, b.y + b.dy) ≠ ∅ →
      ∃ s', stepBeam s b rest = Sum.inr s' ∧
        s'.remaining = s.remaining.erase (b.x + b.dx, b.y + b.dy)) := by
  have hmove : stepBeam s b rest = stepMove s b rest := by
    by_cases hz : b.steps = 0
    · simp [stepBeam, hz, h0 hz]
    · simp [stepBeam, hz]
  rw [hmove]
  simp only [stepMove]
  rw [if_neg (by omega : ¬b.steps ≥ 200), if_neg (not_not_intro hbounds),
    if_pos htarget]
  constructor
  · intro hempty
    rw [if_pos hempty]
  · intro hne
    rw [if_neg hne]
    exact ⟨_, rfl, scanCollision_remaining _ _ _ _ _ _⟩

/-- Witness for `target_checked_before_collision`: in
`targetInBoxState`, the dequeued beam's next position `(3,1)` is the
last remaining target and lies inside the placed reflect block's box,
while another beam is still queued; the step returns success
immediately. -/
theorem target_checked_before_collision_witness :
    reflectAt01.within_boundaries 3 1 = true ∧
    stepBeam targetInBoxState ⟨2, 1, 1, 0, 1⟩ [⟨0, 0, 1, 1, 5⟩] =
      Sum.inl true :=
  ⟨by decide,
   (target_checked_before_collision targetInBoxState ⟨2, 1, 1, 0, 1⟩
      [⟨0, 0, 1, 1, 5⟩] (by intro h; cases h) (by decide)
      (by refine ⟨by decide, by decide, by decide, by decide⟩)
      (by decide)).1 (by decide)⟩

/-!
Termination of the beam simulator.
-/

/-- Every `interact` returns at most two directions (reflect: one,
absorb: none, refract: two then one). -/
theorem interact_length_le_two (b : Block) (dir pos : Int × Int) :
    (b.interact dir pos).1.length ≤ 2 := by
  cases hk : b.kind
  · simp [Block.interact, hk]
  · simp [Block.interact, hk]
  · simp only [Block.interact, hk]
    split
    · simp
    · simp

/-- The potential of a beam is positive. -/
theorem pot_pos (n : Nat) : 0 < pot n := Nat.pos_pow_of_pos _ (by omega)

/-- Under the hop budget, a beam's potential is three times its
successors'. -/
theorem pot_eq_three_mul (n : Nat) (h : n < 200) : pot n = 3 * pot (n + 1) := by
  have h1 : 201 - n = (201 - (n + 1)) + 1 := by omega
  rw [pot, pot, h1, pow_succ, Nat.mul_comm]

theorem queueMeasure_nil : queueMeasure [] = 0 := rfl

theorem queueMeasure_cons (b : Beam) (q : List Beam) :
    queueMeasure (b :: q) = pot b.steps + queueMeasure q := by
  simp [queueMeasure]

theorem queueMeasure_append (q1 q2 : List Beam) :
    queueMeasure (q1 ++ q2) = queueMeasure q1 + queueMeasure q2 := by
  simp [queueMeasure]

/-- The measure of the beams enqueued for a list of directions. -/
theorem queueMeasure_successors (pos : Int × Int) (dirs : List (Int × Int))
    (steps : Nat) :
    queueMeasure (successors pos dirs steps) = dirs.length * pot (steps + 1) := by
  induction dirs with
  | nil => simp [successors, queueMeasure]
  | cons d ds ih =>
      have hexp : successors pos (d :: ds) steps =
          ⟨pos.1, pos.2, d.1, d.2, steps + 1⟩ :: successors pos ds steps := rfl
      rw [hexp, queueMeasure_cons, ih, List.length_cons, Nat.succ_mul]
      show pot (steps + 1) + ds.length * pot (steps + 1) =
        ds.length * pot (steps + 1) + pot (steps + 1)
      omega

/-- The potential dropped by dequeuing a beam under the hop budget
exceeds the potential of the at-most-two successors it enqueues. -/
theorem successors_measure_lt (pos : Int × Int) (dirs : List (Int × Int))
    (steps : Nat) (hlen : dirs.length ≤ 2) (hsteps : steps < 200) :
    queueMeasure (successors pos dirs steps) < pot steps := by
  rw [queueMeasure_successors, pot_eq_three_mul steps hsteps]
  have hp := pot_pos (steps + 1)
  have : dirs.length * pot (steps + 1) ≤ 2 * pot (steps + 1) :=
    Nat.mul_le_mul_right _ hlen
  omega

/-- The collision scan leaves the queue at the old remainder plus
successors whose summed potential is below the dequeued beam's. -/
theorem scanCollision_measure_lt (s : SimState) (rest : List Beam)
    (dir : Int × Int) (next_x next_y : Int) (steps : Nat) (hsteps : steps < 200) :
    queueMeasure (scanCollision s rest dir next_x next_y steps).queue <
      pot steps + queueMeasure rest := by
  rw [scanCollision]
  split
  · rename_i idx blk hfind
    show queueMeasure (rest ++ successors (next_x, next_y)
      (blk.interact dir (next_x, next_y)).1 steps) < _
    rw [queueMeasure_append]
    have := successors_measure_lt (next_x, next_y)
      (blk.interact dir (next_x, next_y)).1 steps
      (interact_length_le_two _ _ _) hsteps
    omega
  · show queueMeasure (rest ++ [⟨next_x, next_y, dir.1, dir.2, steps + 1⟩]) < _
    rw [queueMeasure_append, queueMeasure_cons, queueMeasure_nil]
    show queueMeasure rest + (pot (steps + 1) + 0) < pot steps + queueMeasure rest
    have h1 := pot_eq_three_mul steps hsteps
    have h2 := pot_pos (steps + 1)
    omega

/-- One loop iteration strictly decreases the queue measure whenever it
does not return. -/
theorem stepMove_measure_lt (s : SimState) (b : Beam) (rest : List Beam)
    (s' : SimState) (hstep : stepMove s b rest = Sum.inr s') :
    queueMeasure s'.queue < queueMeasure (b :: rest) := by
  rw [queueMeasure_cons]
  have hbp := pot_pos b.steps
  simp only [stepMove] at hstep
  split at hstep
  · cases hstep
    show queueMeasure rest < _
    omega
  · rename_i hbudget
    have hsteps : b.steps < 200 := by omega
    split at hstep
    · cases hstep
      show queueMeasure rest < _
      omega
    · split at hstep
      · split at hstep
        · cases hstep
        · cases hstep
          exact scanCollision_measure_lt _ rest (b.dx, b.dy) _ _ b.steps hsteps
      · cases hstep
        exact scanCollision_measure_lt _ rest (b.dx, b.dy) _ _ b.steps hsteps

/-- Same statement for the full iteration including the hop-0 case. -/
theorem stepBeam_measure_lt (s : SimState) (b : Beam) (rest : List Beam)
    (s' : SimState) (hstep : stepBeam s b rest = Sum.inr s') :
    queueMeasure s'.queue < queueMeasure (b :: rest) := by
  simp only [stepBeam] at hstep
  split at hstep
  · rename_i hz
    split at hstep
    · rename_i idx blk hfind
      cases hstep
      rw [queueMeasure_cons]
      show queueMeasure (rest ++ successors (b.x, b.y)
        (blk.interact (b.dx, b.dy) (b.x, b.y)).1 b.steps) < _
      rw [queueMeasure_append]
      have := successors_measure_lt (b.x, b.y)
        (blk.interact (b.dx, b.dy) (b.x, b.y)).1 b.steps
        (interact_length_le_two _ _ _) (by omega)
      omega
    · exact stepMove_measure_lt s b rest s' hstep
  · exact stepMove_measure_lt s b rest s' hstep

/-- With fuel exceeding the queue measure, the loop reaches a result. -/
theorem simLoop_isSome : ∀ (fuel : Nat) (s : SimState),
    queueMeasure s.queue < fuel → (simLoop fuel s).isSome := by
  intro fuel
  induction fuel with
  | zero => intro s h; omega
  | succ n ih =>
      intro s h
      rw [simLoop]
      cases hq : s.queue with
      | nil => simp
      | cons b rest =>
          cases hstep : stepBeam s b rest with
          | inl r => simp [hstep]
          | inr s' =>
              simp only [hstep]
              apply ih
              have hlt := stepBeam_measure_lt s b rest s' hstep
              rw [hq] at h
              omega

/-- Every beam in the queue an iteration leaves behind is either a
still-queued old beam or a successor at the dequeued beam's hop count
plus one (move part). -/
theorem scanCollision_queue_shape (s : SimState) (rest : List Beam)
    (dir : Int × Int) (next_x next_y : Int) (steps : Nat) :
    ∀ nb ∈ (scanCollision s rest dir next_x next_y steps).queue,
      nb ∈ rest ∨ nb.steps = steps + 1 := by
  rw [scanCollision]
  split
  · rename_i idx blk hfind
    intro nb hnb
    have hnb2 : nb ∈ rest ++ successors (next_x, next_y)
        (blk.interact dir (next_x, next_y)).1 steps := hnb
    rcases List.mem_append.mp hnb2 with h | h
    · exact Or.inl h
    · right
      simp only [successors, List.mem_map] at h
      obtain ⟨d, _, hd⟩ := h
      rw [← hd]
  · intro nb hnb
    have hnb2 : nb ∈ rest ++ [⟨next_x, next_y, dir.1, dir.2, steps + 1⟩] := hnb
    rcases List.mem_append.mp hnb2 with h | h
    · exact Or.inl h
    · right
      simp at h
      rw [h]

theorem stepMove_queue_shape (s : SimState) (b : Beam) (rest : List Beam)
    (s' : SimState) (hstep : stepMove s b rest = Sum.inr s') :
    ∀ nb ∈ s'.queue, nb ∈ rest ∨ nb.steps = b.steps + 1 := by
  simp only [stepMove] at hstep
  split at hstep
  · cases hstep
    exact fun nb h => Or.inl h
  · split at hstep
    · cases hstep
      exact fun nb h => Or.inl h
    · split at hstep
      · split at hstep
        · cases hstep
        · cases hstep
          exact scanCollision_queue_shape _ rest (b.dx, b.dy) _ _ b.steps
      · cases hstep
        exact scanCollision_queue_shape _ rest (b.dx, b.dy) _ _ b.steps

/-- C9 (confirmed): the simulator terminates on every board and target
set — `test_solution` always reaches a result at its fuel bound —
because a dequeued beam whose hop count has reached 200 is dropped with
no successors, every interaction yields at most two successor
directions, every enqueued successor's hop count is the dequeued beam's
plus one, and once the queue drains the loop reports success exactly
when no targets remain. -/
theorem simulator_terminates :
    (∀ (board : Board) (targets : Finset (Int × Int)),
      ∃ r, test_solution board targets = some r) ∧
    (∀ (b : Block) (dir pos : Int × Int), (b.interact dir pos).1.length ≤ 2) ∧
    (∀ (s : SimState) (b : Beam) (rest : List Beam), b.steps ≥ 200 →
      stepBeam s b rest = Sum.inr { s with queue := rest }) ∧
    (∀ (s : SimState) (b : Beam) (rest : List Beam) (s' : SimState),
      stepBeam s b rest = Sum.inr s' →
      ∀ nb ∈ s'.queue, nb ∈ rest ∨ nb.steps = b.steps + 1) ∧
    (∀ (fuel : Nat) (s : SimState), s.queue = [] →
      simLoop (fuel + 1) s = some (decide (s.remaining = ∅))) := by
  refine ⟨?_, interact_length_le_two, ?_, ?_, ?_⟩
  · intro board targets
    have h := simLoop_isSome (queueMeasure (initState board targets).queue + 1)
      (initState board targets) (by omega)
    rcases Option.isSome_iff_exists.mp h with ⟨r, hr⟩
    exact ⟨r, hr⟩
  · intro s b rest hge
    have hz : ¬b.steps = 0 := by omega
    simp [stepBeam, hz, stepMove, hge]
  · intro s b rest s' hstep nb hnb
    have hsucc : ∀ (pos : Int × Int) (dirs : List (Int × Int)),
        nb ∈ successors pos dirs b.steps → nb.steps = b.steps + 1 := by
      intro pos dirs hmem
      simp only [successors, List.mem_map] at hmem
      obtain ⟨d, _, hd⟩ := hmem
      rw [← hd]
    simp only [stepBeam] at hstep
    split at hstep
    · split at hstep
      · rename_i p hfind
        obtain ⟨idx, blk⟩ := p
        cases hstep
        simp only [applyInteract] at hnb
        rcases List.mem_append.mp hnb with h | h
        · exact Or.inl h
        · exact Or.inr (hsucc _ _ h)
      · exact stepMove_queue_shape s b rest s' hstep nb hnb
    · exact stepMove_queue_shape s b rest s' hstep nb hnb
  · intro fuel s hq
    rw [simLoop, hq]

/-- Witness for `simulator_terminates`: `test_solution` yields a result
on `trivialBoard` with no targets, and the exhausted dequeued beam of
`exhaustedBeamState` (hop count 200) is dropped: the iteration continues
with just the queue remainder, enqueuing nothing. -/
theorem simulator_terminates_witness :
    (∃ r, test_solution trivialBoard ∅ = some r) ∧
    stepBeam exhaustedBeamState ⟨1, 1, 1, 0, 200⟩ [] =
      Sum.inr { exhaustedBeamState with queue := [] } :=
  ⟨simulator_terminates.1 trivialBoard ∅,
   simulator_terminates.2.2.1 exhaustedBeamState ⟨1, 1, 1, 0, 200⟩ []
     (by decide)⟩

/-!
The backtracking search: restoration on failure and full placements on
success.
-/

/-- A placeable cell has no placed movable block on it. -/
theorem is_placeable_no_block (b : Board) (i j : Nat)
    (h : b.is_placeable i j = true) :
    ∀ bb ∈ b.free_blocks_placed, bb.orig_pos ≠ some (i, j) := by
  intro bb hmem heq
  rw [Board.is_placeable] at h
  split at h
  · simp at h
  · rw [Bool.not_eq_true', List.any_eq_false] at h
    have h2 := h bb hmem
    simp at h2
    exact h2 heq

/-- Removing by an origin no earlier list entry carries deletes exactly
the appended block. -/
theorem removeFirstAt_append (l : List Block) (blk : Block) (ij : Nat × Nat)
    (hfree : ∀ bb ∈ l, bb.orig_pos ≠ some ij) (hblk : blk.orig_pos = some ij) :
    removeFirstAt (l ++ [blk]) ij = l := by
  induction l with
  | nil => simp [removeFirstAt, hblk]
  | cons a as ih =>
      have ha : a.orig_pos ≠ some ij := hfree a (by simp)
      simp only [List.cons_append, removeFirstAt, if_neg ha]
      exact congrArg (List.cons a) (ih fun bb hh => hfree bb (by simp [hh]))

/-- `remove_free_block` undoes `place_free_block` on a cell no placed
movable block occupies. -/
theorem place_then_remove (b : Board) (i j : Nat) (blk : Block)
    (hfree : ∀ bb ∈ b.free_blocks_placed, bb.orig_pos ≠ some (i, j)) :
    (b.place_free_block i j blk).remove_free_block i j = b := by
  simp only [Board.place_free_block, Board.remove_free_block]
  rw [removeFirstAt_append _ _ _ hfree rfl]

/-- Incrementing restores a positive decremented count. -/
theorem incCount_decCount (c : Counts) (t : BlockType)
    (h : 0 < getCount c t) : incCount (decCount c t) t = c := by
  cases t <;> obtain ⟨a, b2, c2⟩ := c <;>
    simp [getCount] at h <;> simp [incCount, decCount] <;> omega

theorem totalCounts_decCount (c : Counts) (t : BlockType)
    (h : 0 < getCount c t) :
    totalCounts (decCount c t) = totalCounts c - 1 := by
  cases t <;> obtain ⟨a, b2, c2⟩ := c <;>
    simp [getCount] at h <;> simp [totalCounts, decCount] <;> omega

theorem getCount_le_totalCounts (c : Counts) (t : BlockType) :
    getCount c t ≤ totalCounts c := by
  cases t <;> simp [getCount, totalCounts] <;> omega

/-- The type loop restores the counts and the board on every failing
return, given that the recursive search below it does. -/
theorem tryTypes_none_preserves (targets : Finset (Int × Int))
    (pos : Nat × Nat) (rest : List (Nat × Nat))
    (hback : ∀ (c : Counts) (b : Board) (c' : Counts) (b' : Board),
      backtrack b targets rest c = (none, c', b') → c' = c ∧ b' = b) :
    ∀ (types : List BlockType) (b : Board) (c : Counts) (c' : Counts)
      (b' : Board),
      (∀ bb ∈ b.free_blocks_placed, bb.orig_pos ≠ some pos) →
      tryTypes b targets pos rest c types = (none, c', b') →
      c' = c ∧ b' = b := by
  intro types
  induction types with
  | nil =>
      intro b c c' b' _ h
      simp only [tryTypes, Prod.mk.injEq] at h
      exact ⟨h.2.1.symm, h.2.2.symm⟩
  | cons t ts ih =>
      intro b c c' b' hfree h
      simp only [tryTypes] at h
      split at h
      · rename_i hcount
        split at h
        · simp at h
        · rename_i c2 b2 heq
          obtain ⟨hc2, hb2⟩ := hback _ _ _ _ heq
          subst hc2
          subst hb2
          rw [place_then_remove b pos.1 pos.2 (mkFreeBlock t) hfree,
            incCount_decCount c t hcount] at h
          exact ih b c c' b' hfree h
      · exact ih b c c' b' hfree h

/-- `backtrack` restores the counts and the board on every failing
return: place/remove pairs match on all return paths. -/
theorem backtrack_none_preserves (targets : Finset (Int × Int)) :
    ∀ (positions : List (Nat × Nat)) (c : Counts) (b : Board) (c' : Counts)
      (b' : Board),
      backtrack b targets positions c = (none, c', b') → c' = c ∧ b' = b := by
  intro positions
  induction positions with
  | nil =>
      intro c b c' b' h
      simp only [backtrack] at h
      split at h
      · split at h
        · simp at h
        · simp only [Prod.mk.injEq] at h
          exact ⟨h.2.1.symm, h.2.2.symm⟩
      · simp only [Prod.mk.injEq] at h
        exact ⟨h.2.1.symm, h.2.2.symm⟩
  | cons pos rest ih =>
      intro c b c' b' h
      simp only [backtrack] at h
      split at h
      · split at h
        · simp at h
        · simp only [Prod.mk.injEq] at h
          exact ⟨h.2.1.symm, h.2.2.symm⟩
      · split at h
        · simp at h
        · rename_i c2 b2 heq
          obtain ⟨hc2, hb2⟩ := ih _ _ _ _ heq
          rw [hc2, hb2] at h
          split at h
          · rename_i hplace
            exact tryTypes_none_preserves targets pos rest ih
              [BlockType.A, BlockType.B, BlockType.C] b c c' b'
              (is_placeable_no_block b pos.1 pos.2 hplace) h
          · simp only [Prod.mk.injEq] at h
            exact ⟨h.2.1.symm, h.2.2.symm⟩

/-- Any success out of the type loop is the solution record of the final
board's movable list, whose length accounts for the whole budget, given
that the recursive search below it does the same. -/
theorem tryTypes_some_spec (targets : Finset (Int × Int)) (pos : Nat × Nat)
    (rest : List (Nat × Nat))
    (hsome : ∀ (c : Counts) (b : Board) (sol : Solution) (c' : Counts)
      (b' : Board), backtrack b targets rest c = (some sol, c', b') →
      sol = solutionOf b'.free_blocks_placed ∧
      sol.length = b.free_blocks_placed.length + totalCounts c)
    (hnone : ∀ (c : Counts) (b : Board) (c' : Counts) (b' : Board),
      backtrack b targets rest c = (none, c', b') → c' = c ∧ b' = b) :
    ∀ (types : List BlockType) (b : Board) (c : Counts) (sol : Solution)
      (c' : Counts) (b' : Board),
      (∀ bb ∈ b.free_blocks_placed, bb.orig_pos ≠ some pos) →
      tryTypes b targets pos rest c types = (some sol, c', b') →
      sol = solutionOf b'.free_blocks_placed ∧
      sol.length = b.free_blocks_placed.length + totalCounts c := by
  intro types
  induction types with
  | nil =>
      intro b c sol c' b' _ h
      simp [tryTypes] at h
  | cons t ts ih =>
      intro b c sol c' b' hfree h
      simp only [tryTypes] at h
      split at h
      · rename_i hcount
        split at h
        · rename_i result c2 b2 heq
          simp only [Prod.mk.injEq, Option.some.injEq] at h
          obtain ⟨hres, _, hb2⟩ := h
          obtain ⟨hsol, hlen⟩ := hsome _ _ _ _ _ heq
          constructor
          · rw [← hres, ← hb2]
            exact hsol
          · rw [← hres, hlen]
            have hplacedlen : (b.place_free_block pos.1 pos.2
                (mkFreeBlock t)).free_blocks_placed.length =
                b.free_blocks_placed.length + 1 := by
              simp [Board.place_free_block]
            rw [hplacedlen, totalCounts_decCount c t hcount]
            have := getCount_le_totalCounts c t
            omega
        · rename_i c2 b2 heq
          obtain ⟨hc2, hb2⟩ := hnone _ _ _ _ heq
          subst hc2
          subst hb2
          rw [place_then_remove b pos.1 pos.2 (mkFreeBlock t) hfree,
            incCount_decCount c t hcount] at h
          exact ih b c sol c' b' hfree h
      · exact ih b c sol c' b' hfree h

/-- Any success of `backtrack` is the solution record of the final
board's movable list and accounts for the entry board's placed blocks
plus the whole remaining budget. -/
theorem backtrack_some_spec (targets : Finset (Int × Int)) :
    ∀ (positions : List (Nat × Nat)) (c : Counts) (b : Board)
      (sol : Solution) (c' : Counts) (b' : Board),
      backtrack b targets positions c = (some sol, c', b') →
      sol = solutionOf b'.free_blocks_placed ∧
      sol.length = b.free_blocks_placed.length + totalCounts c := by
  intro positions
  induction positions with
  | nil =>
      intro c b sol c' b' h
      simp only [backtrack] at h
      split at h
      · rename_i hzero
        split at h
        · simp only [Prod.mk.injEq, Option.some.injEq] at h
          obtain ⟨hsol, _, hb⟩ := h
          subst hb
          refine ⟨hsol.symm, ?_⟩
          rw [← hsol]
          have : totalCounts c = 0 := by
            obtain ⟨h1, h2, h3⟩ := hzero
            simp [totalCounts, h1, h2, h3]
          rw [this, solutionOf, List.length_map]
          omega
        · simp at h
      · simp at h
  | cons pos rest ih =>
      intro c b sol c' b' h
      simp only [backtrack] at h
      split at h
      · rename_i hzero
        split at h
        · simp only [Prod.mk.injEq, Option.some.injEq] at h
          obtain ⟨hsol, _, hb⟩ := h
          subst hb
          refine ⟨hsol.symm, ?_⟩
          rw [← hsol]
          have : totalCounts c = 0 := by
            obtain ⟨h1, h2, h3⟩ := hzero
            simp [totalCounts, h1, h2, h3]
          rw [this, solutionOf, List.length_map]
          omega
        · simp at h
      · split at h
        · rename_i result c2 b2 heq
          simp only [Prod.mk.injEq, Option.some.injEq] at h
          obtain ⟨hres, _, hb2⟩ := h
          rw [← hres, ← hb2]
          exact ih _ _ _ _ _ heq
        · rename_i c2 b2 heq
          obtain ⟨hc2, hb2⟩ := backtrack_none_preserves targets rest _ _ _ _ heq
          rw [hc2, hb2] at h
          split at h
          · rename_i hplace
            exact tryTypes_some_spec targets pos rest ih
              (backtrack_none_preserves targets rest)
              [BlockType.A, BlockType.B, BlockType.C] b c sol c' b'
              (is_placeable_no_block b pos.1 pos.2 hplace) h
          · simp at h

/-- C7 (confirmed): whenever `solve` returns a result, it is the ordered
`(origin cell, block class name)` record of the final board's
movable-block list, and on a board whose movable list starts empty its
length is exactly the total movable budget
`blocks_available.A + blocks_available.B + blocks_available.C` — never a
partial placement. -/
theorem solve_returns_full_placement (b : Board)
    (hempty : b.free_blocks_placed = []) (sol : Solution) (b' : Board)
    (h : solve b = (some sol, b')) :
    sol = solutionOf b'.free_blocks_placed ∧
    sol.length = b.blocks_available.A + b.blocks_available.B +
      b.blocks_available.C := by
  simp only [solve] at h
  rcases hb : backtrack b b.points.toFinset b.free_positions
      { A := b.blocks_available.A, B := b.blocks_available.B,
        C := b.blocks_available.C } with ⟨res, c2, b2⟩
  rw [hb] at h
  simp only [Prod.mk.injEq] at h
  obtain ⟨hres, hb2⟩ := h
  rw [hres] at hb
  obtain ⟨hsol, hlen⟩ := backtrack_some_spec _ _ _ _ _ _ _ hb
  constructor
  · rw [← hb2]
    exact hsol
  · rw [hlen, hempty]
    simp [totalCounts]

/-- Witness for `solve_returns_full_placement`: on `trivialBoard` (no
targets, zero budget, empty movable list) `solve` returns the empty
placement, which is the record of the final board's empty movable list
and has length equal to the zero budget. -/
theorem solve_returns_full_placement_witness :
    ([] : Solution) = solutionOf trivialBoard.free_blocks_placed ∧
    ([] : Solution).length = trivialBoard.blocks_available.A +
      trivialBoard.blocks_available.B + trivialBoard.blocks_available.C := by
  have hback : backtrack trivialBoard trivialBoard.points.toFinset
      trivialBoard.free_positions
      { A := trivialBoard.blocks_available.A,
        B := trivialBoard.blocks_available.B,
        C := trivialBoard.blocks_available.C } =
      (some [],
        ({ A := trivialBoard.blocks_available.A,
           B := trivialBoard.blocks_available.B,
           C := trivialBoard.blocks_available.C } : Counts),
        trivialBoard) := by
    rw [backtrack.eq_def, if_pos (by decide), if_pos (by decide)]
    rfl
  have hcomp : solve trivialBoard = (some [], trivialBoard) := by
    simp only [solve]
    rw [hback]
  exact solve_returns_full_placement trivialBoard rfl [] trivialBoard hcomp

/-- C8 (confirmed): every `place_free_block` the search performs is
undone by a matching `remove_free_block` on every failing return path:
when `backtrack` returns no result it hands back the counts and the
board exactly as it received them, and consequently a failed `solve`
leaves the board it was given unchanged. -/
theorem backtracking_restores_on_failure :
    (∀ (b b' : Board), solve b = (none, b') → b' = b) ∧
    (∀ (targets : Finset (Int × Int)) (positions : List (Nat × Nat))
       (c : Counts) (b : Board) (c' : Counts) (b' : Board),
       backtrack b targets positions c = (none, c', b') →
       c' = c ∧ b' = b) := by
  constructor
  · intro b b' h
    simp only [solve] at h
    rcases hb : backtrack b b.points.toFinset b.free_positions
        { A := b.blocks_available.A, B := b.blocks_available.B,
          C := b.blocks_available.C } with ⟨res, c2, b2⟩
    rw [hb] at h
    simp only [Prod.mk.injEq] at h
    obtain ⟨hres, hb2⟩ := h
    rw [hres] at hb
    obtain ⟨_, hbb⟩ := backtrack_none_preserves _ _ _ _ _ _ hb
    rw [← hb2, hbb]
  · exact fun targets positions c b c' b' h =>
      backtrack_none_preserves targets positions c b c' b' h

/-- Witness for `backtracking_restores_on_failure`: `stuckBoard` (one
disallowed cell, budget one reflect block) admits no placement, `solve`
returns no result, and the board comes back exactly as given. -/
theorem backtracking_restores_on_failure_witness :
    stuckBoard = stuckBoard ∧ solve stuckBoard = (none, stuckBoard) := by
  have hpos : stuckBoard.free_positions = [] := by decide
  have hback : backtrack stuckBoard stuckBoard.points.toFinset
      stuckBoard.free_positions
      { A := stuckBoard.blocks_available.A,
        B := stuckBoard.blocks_available.B,
        C := stuckBoard.blocks_available.C } =
      (none,
        ({ A := stuckBoard.blocks_available.A,
           B := stuckBoard.blocks_available.B,
           C := stuckBoard.blocks_available.C } : Counts),
        stuckBoard) := by
    rw [backtrack.eq_def, if_neg (by decide), hpos]
  have hcomp : solve stuckBoard = (none, stuckBoard) := by
    simp only [solve]
    rw [hback]
  exact ⟨backtracking_restores_on_failure.1 stuckBoard stuckBoard hcomp, hcomp⟩

/-!
Frame property of the store-based `test_solution`.
-/

/-- Writing one store cell leaves every other cell unchanged. -/
theorem getD_set_ne (l : List Block) (id i : Nat) (v : Block) (h : id ≠ i) :
    (l.set id v).getD i defaultBlock = l.getD i defaultBlock := by
  simp [List.getD, List.getElem?_set_ne h]

/-- The collision scan only ever returns a reference it was given. -/
theorem findCollisionH_mem (store : List Block) :
    ∀ (ids : List Nat) (x y : Int) (id : Nat) (blk : Block),
      findCollisionH store ids x y = some (id, blk) → id ∈ ids := by
  intro ids
  induction ids with
  | nil => intro x y id blk h; simp [findCollisionH] at h
  | cons a as ih =>
      intro x y id blk h
      rw [findCollisionH] at h
      split at h
      · simp only [Option.some.injEq, Prod.mk.injEq] at h
        simp [h.1]
      · exact List.mem_cons_of_mem a (ih x y id blk h)

/-- Same for the hop-0 offset-point scan. -/
theorem findCollisionEpsH_mem (store : List Block) :
    ∀ (ids : List Nat) (sx sy : Int) (id : Nat) (blk : Block),
      findCollisionEpsH store ids sx sy = some (id, blk) → id ∈ ids := by
  intro ids
  induction ids with
  | nil => intro sx sy id blk h; simp [findCollisionEpsH] at h
  | cons a as ih =>
      intro sx sy id blk h
      rw [findCollisionEpsH] at h
      split at h
      · simp only [Option.some.injEq, Prod.mk.injEq] at h
        simp [h.1]
      · exact List.mem_cons_of_mem a (ih sx sy id blk h)

/-- One iteration of the store-based loop never touches a store cell
below any lower bound on the block references it holds, and it leaves
the reference list itself unchanged. -/
theorem stepBeamH_frame (s : SimStateH) (b : Beam) (rest : List Beam)
    (s' : SimStateH) (N : Nat) (hids : ∀ id ∈ s.blockIds, N ≤ id)
    (hstep : stepBeamH s b rest = Sum.inr s') :
    s'.blockIds = s.blockIds ∧
      ∀ i < N, s'.store.getD i defaultBlock = s.store.getD i defaultBlock := by
  have happly : ∀ (s1 : SimStateH) (rest1 : List Beam) (id : Nat) (blk : Block)
      (dir pos : Int × Int) (steps : Nat), N ≤ id →
      (applyInteractH s1 rest1 id blk dir pos steps).blockIds = s1.blockIds ∧
      ∀ i < N, (applyInteractH s1 rest1 id blk dir pos steps).store.getD i
          defaultBlock = s1.store.getD i defaultBlock := by
    intro s1 rest1 id blk dir pos steps hN
    refine ⟨rfl, fun i hi => ?_⟩
    show (s1.store.set id (blk.interact dir pos).2).getD i defaultBlock = _
    exact getD_set_ne _ _ _ _ (by omega)
  have hscan : ∀ (s1 : SimStateH) (rest1 : List Beam) (dir : Int × Int)
      (nx ny : Int) (steps : Nat), s1.blockIds = s.blockIds →
      (scanCollisionH s1 rest1 dir nx ny steps).blockIds = s1.blockIds ∧
      ∀ i < N, (scanCollisionH s1 rest1 dir nx ny steps).store.getD i
          defaultBlock = s1.store.getD i defaultBlock := by
    intro s1 rest1 dir nx ny steps hsame
    rw [scanCollisionH]
    split
    · rename_i id blk hfind
      have hid : id ∈ s1.blockIds := findCollisionH_mem _ _ _ _ _ _ hfind
      rw [hsame] at hid
      exact happly s1 rest1 id blk dir (nx, ny) steps (hids id hid)
    · exact ⟨rfl, fun i _ => rfl⟩
  have hmove : stepMoveH s b rest = Sum.inr s' →
      s'.blockIds = s.blockIds ∧
      ∀ i < N, s'.store.getD i defaultBlock = s.store.getD i defaultBlock := by
    intro hm
    simp only [stepMoveH] at hm
    split at hm
    · cases hm
      exact ⟨rfl, fun i _ => rfl⟩
    · split at hm
      · cases hm
        exact ⟨rfl, fun i _ => rfl⟩
      · split at hm
        · split at hm
          · cases hm
          · cases hm
            exact hscan _ rest (b.dx, b.dy) _ _ b.steps rfl
        · cases hm
          exact hscan _ rest (b.dx, b.dy) _ _ b.steps rfl
  simp only [stepBeamH] at hstep
  split at hstep
  · split at hstep
    · rename_i id blk hfind
      cases hstep
      have hid : id ∈ s.blockIds := findCollisionEpsH_mem _ _ _ _ _ _ hfind
      exact happly s rest id blk (b.dx, b.dy) (b.x, b.y) b.steps (hids id hid)
    · exact hmove hstep
  · exact hmove hstep

/-- The store-based loop never writes a store cell below a lower bound
on the block references of its state. -/
theorem simLoopH_frame : ∀ (fuel : Nat) (s : SimStateH) (N : Nat),
    (∀ id ∈ s.blockIds, N ≤ id) →
    ∀ i < N, (simLoopH fuel s).2.getD i defaultBlock =
      s.store.getD i defaultBlock := by
  intro fuel
  induction fuel with
  | zero => intro s N _ i _; rfl
  | succ n ih =>
      intro s N hids i hi
      rw [simLoopH]
      cases hq : s.queue with
      | nil => rfl
      | cons b rest =>
          cases hstep : stepBeamH s b rest with
          | inl r => simp [hstep]
          | inr s' =>
              obtain ⟨hsame, hpres⟩ := stepBeamH_frame s b rest s' N hids hstep
              have hids' : ∀ id ∈ s'.blockIds, N ≤ id := by
                rw [hsame]
                exact hids
              simp only [hstep]
              rw [ih s' N hids' i hi, hpres i hi]

/-- Every reference the clone introduces is at or above the old store
length. -/
theorem cloneH_ids_ge (store : List Block) (b : BoardRef) :
    ∀ id ∈ (cloneH store b).2.fixed_block_ids ++
        (cloneH store b).2.free_block_ids, store.length ≤ id := by
  intro id hid
  rcases List.mem_append.mp hid with h | h
  · simp only [cloneH, List.mem_map, List.mem_range] at h
    obtain ⟨k, _, hk⟩ := h
    omega
  · simp only [cloneH, List.mem_map, List.mem_range] at h
    obtain ⟨k, _, hk⟩ := h
    omega

/-- The clone extends the store without touching existing cells. -/
theorem cloneH_store_prefix (store : List Block) (b : BoardRef) (i : Nat)
    (hi : i < store.length) :
    (cloneH store b).1.getD i defaultBlock = store.getD i defaultBlock := by
  show ((store ++ _) ++ _).getD i defaultBlock = _
  rw [List.getD_append _ _ _ _ (by simp; omega),
    List.getD_append _ _ _ _ hi]

/-- C10 (confirmed): `test_solution` never mutates the caller's board.
All simulation-time mutation — refract flags set by `interact`, target
removal — happens on the deep copy made at entry: the clone's block
cells are fresh store cells at or above the old store length, the loop
only ever writes through the clone's references, and therefore every
store cell the argument board can reach is unchanged when the call
returns (the `BoardRef` value itself is never reassigned by the
function). -/
theorem test_solution_frames_caller (store : List Block) (board : BoardRef)
    (targets : Finset (Int × Int)) (i : Nat) (hi : i < store.length) :
    (test_solutionH store board targets).2.getD i defaultBlock =
      store.getD i defaultBlock := by
  rw [test_solutionH]
  rw [simLoopH_frame _ _ store.length
    (cloneH_ids_ge store board) i hi]
  exact cloneH_store_prefix store board i hi

/-- Witness for `test_solution_frames_caller`: running the store-based
`test_solution` on `boardRefOne` over `storeOne` (whose only cell holds
a refract block with its flag already set) leaves cell 0 holding exactly
the original block value. -/
theorem test_solution_frames_caller_witness :
    (test_solutionH storeOne boardRefOne ∅).2.getD 0 defaultBlock =
      storeOne.getD 0 defaultBlock ∧
    storeOne.getD 0 defaultBlock = usedRefract :=
  ⟨test_solution_frames_caller storeOne boardRefOne ∅ 0 (by decide), rfl⟩

end Lazor
